import Mathlib

/-!
Verification of the scrape/transcript core of the zoom_downloader package.

The Python sources `src/zoom_downloader/transcript.py` and
`src/zoom_downloader/scraper.py` are embedded shallowly: strings are modelled
as `List Char` (wrapped into `String` at the interface), Python dictionaries
parsed from JSON as association lists, in-place mutation of the result object
as explicit state passing, and Python exceptions as an explicit `Bool` flag
carried next to the state.
-/

set_option maxHeartbeats 1600000
set_option maxRecDepth 4000

namespace ZoomDL

/-- Characters treated as whitespace by Python's `str.strip()` and by the
regex class `\s` used in `re.sub(r"\s+", " ", ...)`: the Unicode whitespace
set of CPython. -/
def isPySpace (c : Char) : Bool :=
  c = ' ' || c = '\t' || c = '\n' || c = '\r' || c = '\x0b' || c = '\x0c' ||
  (0x1c ≤ c.toNat && c.toNat ≤ 0x1f) || c.toNat = 0x85 || c.toNat = 0xa0 ||
  c.toNat = 0x1680 || (0x2000 ≤ c.toNat && c.toNat ≤ 0x200a) ||
  c.toNat = 0x2028 || c.toNat = 0x2029 || c.toNat = 0x202f ||
  c.toNat = 0x205f || c.toNat = 0x3000

/-- Python `str.strip()`: drop whitespace characters from both ends. -/
def pyStrip (l : List Char) : List Char :=
  ((l.dropWhile isPySpace).reverse.dropWhile isPySpace).reverse

/-- One pass of `re.sub(r"\s+", " ", text)`: `inRun` records whether the
previous character belonged to a whitespace run that has already been
replaced by a single space. -/
def collapseAux : Bool → List Char → List Char
  | _, [] => []
  | inRun, c :: cs =>
    if isPySpace c then
      if inRun then collapseAux true cs else ' ' :: collapseAux true cs
    else c :: collapseAux false cs

/-- `re.sub(r"\s+", " ", text)`: every maximal whitespace run becomes one space. -/
def collapseWs (l : List Char) : List Char := collapseAux false l

/-- Python's substring containment test (`pat in s`). -/
def listHasInfix (pat : List Char) : List Char → Bool
  | [] => pat.isEmpty
  | c :: cs => pat.isPrefixOf (c :: cs) || listHasInfix pat cs

/-- `pat in s` at the `String` interface. -/
def hasSubstr (s pat : String) : Bool := listHasInfix pat.data s.data

/-- Python `str.lower()` (the sources only ever compare ASCII data). -/
def pyLower (l : List Char) : List Char := l.map Char.toLower

/-- Python `str.upper()` (the sources only ever compare ASCII data). -/
def pyUpper (l : List Char) : List Char := l.map Char.toUpper

/-- Line boundary characters of Python `str.splitlines()`. -/
def isLineBoundary (c : Char) : Bool :=
  c = '\n' || c = '\r' || c = '\x0b' || c = '\x0c' ||
  c.toNat = 0x1c || c.toNat = 0x1d || c.toNat = 0x1e || c.toNat = 0x85 ||
  c.toNat = 0x2028 || c.toNat = 0x2029

/-- Worker for `str.splitlines()`: `acc` is the reversed current line; a final
line break does not produce a trailing empty line. -/
def splitGo (acc : List Char) : List Char → List (List Char)
  | [] => [acc.reverse]
  | c :: rest =>
    if c = '\r' then
      let rest2 := if rest.head? = some '\n' then rest.tail else rest
      acc.reverse :: (if rest2.isEmpty then [] else splitGo [] rest2)
    else if isLineBoundary c then
      acc.reverse :: (if rest.isEmpty then [] else splitGo [] rest)
    else splitGo (c :: acc) rest
termination_by l => l.length
decreasing_by
  all_goals simp only [List.length_cons]
  · split
    · simp only [List.length_tail]; omega
    · omega
  · omega
  · omega

/-- Python `str.splitlines()`; the empty string yields no lines. -/
def pySplitlines (l : List Char) : List (List Char) :=
  if l.isEmpty then [] else splitGo [] l

/-- Scan for the first `'>'` (end of the `[^>]+` part of the tag regex). -/
def skipToGt : List Char → Option (List Char)
  | [] => none
  | c :: rest => if c = '>' then some rest else skipToGt rest

/-- At a `'<'`, the source's `tag_re = re.compile(r"<[^>]+>")` matches only if
at least one non-`'>'` character precedes the closing `'>'`. Returns the
remainder after the closing `'>'` when the tag matches. -/
def tagMatchEnd : List Char → Option (List Char)
  | [] => none
  | c :: rest => if c = '>' then none else skipToGt rest

theorem skipToGt_length : ∀ l r, skipToGt l = some r → r.length < l.length := by
  intro l
  induction l with
  | nil => intro r h; simp [skipToGt] at h
  | cons c cs ih =>
    intro r h
    by_cases hc : c = '>'
    · simp [skipToGt, hc] at h
      simp [← h, List.length_cons]
    · simp [skipToGt, hc] at h
      exact Nat.lt_trans (ih r h) (Nat.lt_succ_self _)

theorem tagMatchEnd_length : ∀ l r, tagMatchEnd l = some r → r.length < l.length := by
  intro l r h
  cases l with
  | nil => simp [tagMatchEnd] at h
  | cons c cs =>
    by_cases hc : c = '>'
    · simp [tagMatchEnd, hc] at h
    · simp [tagMatchEnd, hc] at h
      exact Nat.lt_trans (skipToGt_length cs r h) (Nat.lt_succ_self _)

/-- `tag_re.sub("", line)`: remove every `<[^>]+>` tag occurrence. -/
def stripTags : List Char → List Char
  | [] => []
  | c :: cs =>
    if c = '<' then
      match h : tagMatchEnd cs with
      | some rest => stripTags rest
      | none => c :: stripTags cs
    else c :: stripTags cs
termination_by l => l.length
decreasing_by
  · exact Nat.lt_trans (tagMatchEnd_length cs rest h) (Nat.lt_succ_self _)
  · exact Nat.lt_succ_self _
  · exact Nat.lt_succ_self _

/-- Modelled from the Python standard library `html.unescape`, restricted to
the common named references; on text containing no `'&'` it is the identity,
which is the only behaviour the repository's transcript data exercises. -/
def entityTable : List (List Char × Char) :=
  [("amp;".data, '&'), ("lt;".data, '<'), ("gt;".data, '>'),
   ("quot;".data, '"'), ("apos;".data, '\''), ("nbsp;".data, '\xa0')]

/-- Try to read one named character reference right after a `'&'`. -/
def matchEntity (cs : List Char) : Option (Char × List Char) :=
  (entityTable.filterMap fun pc =>
      if pc.1.isPrefixOf cs then some (pc.2, cs.drop pc.1.length) else none).head?

theorem matchEntity_length :
    ∀ cs ch rest, matchEntity cs = some (ch, rest) → rest.length ≤ cs.length := by
  intro cs ch rest h
  simp only [matchEntity, entityTable, List.filterMap] at h
  by_cases h1 : ("amp;".data).isPrefixOf cs <;>
    by_cases h2 : ("lt;".data).isPrefixOf cs <;>
    by_cases h3 : ("gt;".data).isPrefixOf cs <;>
    by_cases h4 : ("quot;".data).isPrefixOf cs <;>
    by_cases h5 : ("apos;".data).isPrefixOf cs <;>
    by_cases h6 : ("nbsp;".data).isPrefixOf cs <;>
    simp [h1, h2, h3, h4, h5, h6] at h <;>
    simp [← h.2, List.length_drop]

/-- Modelled from the Python standard library `html.unescape` (see
`entityTable`): decode character references, leaving unrecognized text as is. -/
def pyUnescape : List Char → List Char
  | [] => []
  | c :: cs =>
    if c = '&' then
      match h : matchEntity cs with
      | some p => p.1 :: pyUnescape p.2
      | none => '&' :: pyUnescape cs
    else c :: pyUnescape cs
termination_by l => l.length
decreasing_by
  · exact Nat.lt_succ_of_le (matchEntity_length cs p.1 p.2 h)
  · exact Nat.lt_succ_self _
  · exact Nat.lt_succ_self _

/-- `TranscriptConverter._clean_caption_line`: remove markup tags, decode
entities, collapse whitespace runs, trim. -/
def clean_caption_line (line : List Char) : List Char :=
  pyStrip (collapseWs (pyUnescape (stripTags line)))

/-- Parsed caption cue unit (`VTTCue` in transcript.py). -/
structure VTTCue where
  timestamp : String
  text : String
deriving DecidableEq

/-- Python `sep.join(parts)`. -/
def joinWith (sep : List Char) : List (List Char) → List Char
  | [] => []
  | [x] => x
  | x :: y :: rest => x ++ sep ++ joinWith sep (y :: rest)

/-- The inner text-collection loop of `parse_vtt_cues` (lines 109-113 of
transcript.py): consume lines while they strip to non-empty, clean each
stripped line, keep the non-empty cleaned ones; return them together
with the lines that remain for the outer loop. -/
def collectCaption : List (List Char) → List (List Char) × List (List Char)
  | [] => ([], [])
  | l :: rest =>
    if (pyStrip l).isEmpty then ([], l :: rest)
    else
      let cleaned := clean_caption_line (pyStrip l)
      let pr := collectCaption rest
      (if cleaned.isEmpty then pr.1 else cleaned :: pr.1, pr.2)

theorem collectCaption_rem_length :
    ∀ ls : List (List Char), (collectCaption ls).2.length ≤ ls.length := by
  intro ls
  induction ls with
  | nil => simp [collectCaption]
  | cons l rest ih =>
    by_cases hs : (pyStrip l).isEmpty
    · simp [collectCaption, hs]
    · simp only [collectCaption, hs, if_false, Bool.false_eq_true, List.length_cons]
      exact Nat.le_succ_of_le ih

/-- The outer scan loop of `TranscriptConverter.parse_vtt_cues` over the split
lines: skip blanks, the WEBVTT header and NOTE lines; a cue starts at a line
containing the timing arrow, or at a cue-identifier line whose successor
(unstripped) contains it; collect and join the caption text; keep the cue only
when the joined text is non-empty. -/
def parseLines : List (List Char) → List VTTCue
  | [] => []
  | l :: rest =>
    let line := pyStrip l
    if line.isEmpty || pyUpper line = "WEBVTT".data || "NOTE".data.isPrefixOf line then
      parseLines rest
    else if listHasInfix "-->".data line then
      let cueText := pyStrip (joinWith [' '] (collectCaption rest).1)
      if cueText.isEmpty then parseLines (collectCaption rest).2
      else ⟨⟨line⟩, ⟨cueText⟩⟩ :: parseLines (collectCaption rest).2
    else
      match rest with
      | [] => []
      | next :: rest2 =>
        if listHasInfix "-->".data next then
          let ts := pyStrip next
          let cueText := pyStrip (joinWith [' '] (collectCaption rest2).1)
          if cueText.isEmpty then parseLines (collectCaption rest2).2
          else ⟨⟨ts⟩, ⟨cueText⟩⟩ :: parseLines (collectCaption rest2).2
        else parseLines (next :: rest2)
termination_by ls => ls.length
decreasing_by
  all_goals simp only [List.length_cons]
  all_goals first
    | omega
    | (refine lt_of_le_of_lt (collectCaption_rem_length _) ?_; omega)

/-- `vtt_text.replace(u-feff, "")`: the single-character replace removes
every occurrence of the byte-order mark, wherever it appears. -/
def removeBOM (l : List Char) : List Char := l.filter (fun c => c ≠ '\uFEFF')

/-- The line list the parser scans: BOM removal, then `splitlines()`. -/
def vttLines (vtt_text : String) : List (List Char) :=
  pySplitlines (removeBOM vtt_text.data)

/-- `TranscriptConverter.parse_vtt_cues`. -/
def parse_vtt_cues (vtt_text : String) : List VTTCue :=
  parseLines (vttLines vtt_text)

/-- Modelled from the spec: "strip a leading byte-order marker if present" —
the leading-only preprocessing variant, for comparison with the source's
replace-all behaviour on line 86 of transcript.py. -/
def stripLeadingBOM (l : List Char) : List Char :=
  if l.head? = some '\uFEFF' then l.tail else l

/-- Modelled from the spec: the parser as the spec describes its
preprocessing, with only a leading byte-order marker stripped. -/
def parse_vtt_cues_leadingBOM (vtt_text : String) : List VTTCue :=
  parseLines (pySplitlines (stripLeadingBOM vtt_text.data))

/-- The cue loop of `vtt_to_paragraph` (lines 145-148 of transcript.py):
`prev` is the previously appended caption text (`None` before the first). -/
def chunksAux (prev : Option String) : List VTTCue → List String
  | [] => []
  | c :: rest =>
    if some c.text = prev then chunksAux prev rest
    else c.text :: chunksAux (some c.text) rest

/-- The cue-level body of `vtt_to_paragraph`: adjacent-duplicate suppression,
join with single spaces, strip, then collapse whitespace runs. -/
def paragraphOfCues (cues : List VTTCue) : String :=
  ⟨collapseWs (pyStrip (joinWith [' '] ((chunksAux none cues).map String.data)))⟩

/-- `TranscriptConverter.vtt_to_paragraph`. -/
def vtt_to_paragraph (vtt_text : String) : String :=
  paragraphOfCues (parse_vtt_cues vtt_text)

/-- The cue-level body of `vtt_to_timestamped_txt` (lines 170-171 of
transcript.py): render each cue as timestamp, newline, text; join the blocks
with a blank line; strip; append a final newline. -/
def timestampedOfCues (cues : List VTTCue) : String :=
  ⟨pyStrip (joinWith "\n\n".data
      (cues.map fun cue => cue.timestamp.data ++ '\n' :: cue.text.data))⟩ ++ "\n"

/-- `TranscriptConverter.vtt_to_timestamped_txt`. -/
def vtt_to_timestamped_txt (vtt_text : String) : String :=
  timestampedOfCues (parse_vtt_cues vtt_text)

/-! ## scraper.py: data model and JSON values -/

/-- Generic structured data as produced by `json.loads`. A number is kept as
the integer formed by its sign and significant digits (see `parseNumber`);
the scraper only consumes the truthiness of numbers, which this preserves. -/
inductive JsonVal where
  | null
  | bool (b : Bool)
  | num (n : Int)
  | str (s : String)
  | arr (items : List JsonVal)
  | obj (fields : List (String × JsonVal))

/-- Python truthiness of a JSON value. -/
def jsonTruthy : JsonVal → Bool
  | .null => false
  | .bool b => b
  | .num n => n != 0
  | .str s => !s.isEmpty
  | .arr l => !l.isEmpty
  | .obj l => !l.isEmpty

/-- Python truthiness of an optional string field (None and "" are falsy). -/
def optTruthy : Option String → Bool
  | none => false
  | some s => !s.isEmpty

/-- `d.get(key)` on a parsed JSON object: `none` when the key is absent.
Duplicate keys in the source text keep the last value, as `json.loads` does. -/
def pyGet (fields : List (String × JsonVal)) (key : String) : Option JsonVal :=
  (fields.reverse.find? (fun kv => kv.1 = key)).map (·.2)

/-- JSON whitespace accepted by the decoder. -/
def jsonWs (c : Char) : Bool := c = ' ' || c = '\t' || c = '\n' || c = '\r'

/-- Modelled from the Python standard library: the string scanner of
`json.loads`, restricted to the short escape sequences (`\uXXXX` escapes are
not modelled; no payload in this development uses them). -/
def parseStringBody : Nat → List Char → List Char → Option (String × List Char)
  | 0, _, _ => none
  | _ + 1, [], _ => none
  | fuel + 1, c :: rest, acc =>
    if c = '"' then some (⟨acc.reverse⟩, rest)
    else if c = '\\' then
      match rest with
      | [] => none
      | e :: rest2 =>
        if e = 'n' then parseStringBody fuel rest2 ('\n' :: acc)
        else if e = 't' then parseStringBody fuel rest2 ('\t' :: acc)
        else if e = 'r' then parseStringBody fuel rest2 ('\r' :: acc)
        else if e = '"' then parseStringBody fuel rest2 ('"' :: acc)
        else if e = '\\' then parseStringBody fuel rest2 ('\\' :: acc)
        else if e = '/' then parseStringBody fuel rest2 ('/' :: acc)
        else if e = 'b' then parseStringBody fuel rest2 ('\x08' :: acc)
        else if e = 'f' then parseStringBody fuel rest2 ('\x0c' :: acc)
        else none
    else parseStringBody fuel rest (c :: acc)

/-- Consume a run of decimal digits, accumulating their value. -/
def parseDigits : List Char → Int → Int × List Char
  | [], acc => (acc, [])
  | c :: rest, acc =>
    if c.isDigit then parseDigits rest (10 * acc + (c.toNat - 48 : Nat))
    else (acc, c :: rest)

/-- Consume an exponent suffix (value ignored; see `JsonVal.num`). -/
def skipExponent (cs : List Char) : List Char :=
  let cs1 := match cs with
    | '+' :: rest => rest
    | '-' :: rest => rest
    | _ => cs
  (parseDigits cs1 0).2

/-- Modelled from the Python standard library: the number scanner of
`json.loads`; sign and significant digits are kept, the exponent consumed. -/
def parseNumber (cs : List Char) : Option (JsonVal × List Char) :=
  let p := match cs with
    | '-' :: rest => (true, rest)
    | _ => (false, cs)
  match p.2 with
  | c :: _ =>
    if c.isDigit then
      let d1 := parseDigits p.2 0
      let d2 := match d1.2 with
        | '.' :: d :: rest =>
          if d.isDigit then parseDigits (d :: rest) d1.1 else d1
        | _ => d1
      let cs4 := match d2.2 with
        | 'e' :: rest => skipExponent rest
        | 'E' :: rest => skipExponent rest
        | _ => d2.2
      some (.num (if p.1 then -d2.1 else d2.1), cs4)
    else none
  | [] => none

mutual
/-- Modelled from the Python standard library `json.loads`: scan one JSON
value. Fuel is decremented on every recursive descent; `jsonParse` supplies
more fuel than any input can consume. -/
def parseVal : Nat → List Char → Option (JsonVal × List Char)
  | 0, _ => none
  | fuel + 1, cs =>
    match cs.dropWhile jsonWs with
    | [] => none
    | c :: rest =>
      if c = '"' then
        match parseStringBody rest.length rest [] with
        | some pr => some (.str pr.1, pr.2)
        | none => none
      else if c = '[' then
        match rest.dropWhile jsonWs with
        | ']' :: rest2 => some (.arr [], rest2)
        | _ => parseArrItems fuel rest []
      else if c = '\x7b' then
        match rest.dropWhile jsonWs with
        | '\x7d' :: rest2 => some (.obj [], rest2)
        | _ => parseObjItems fuel rest []
      else if "true".data.isPrefixOf (c :: rest) then some (.bool true, (c :: rest).drop 4)
      else if "false".data.isPrefixOf (c :: rest) then some (.bool false, (c :: rest).drop 5)
      else if "null".data.isPrefixOf (c :: rest) then some (.null, (c :: rest).drop 4)
      else parseNumber (c :: rest)

/-- Array items after `[`, accumulated in reverse. -/
def parseArrItems : Nat → List Char → List JsonVal → Option (JsonVal × List Char)
  | 0, _, _ => none
  | fuel + 1, cs, acc =>
    match parseVal fuel cs with
    | none => none
    | some pr =>
      match pr.2.dropWhile jsonWs with
      | ',' :: rest2 => parseArrItems fuel rest2 (pr.1 :: acc)
      | ']' :: rest2 => some (.arr (pr.1 :: acc).reverse, rest2)
      | _ => none

/-- Object members after an opening brace, accumulated in reverse. -/
def parseObjItems : Nat → List Char → List (String × JsonVal) →
    Option (JsonVal × List Char)
  | 0, _, _ => none
  | fuel + 1, cs, acc =>
    match cs.dropWhile jsonWs with
    | '"' :: rest =>
      match parseStringBody rest.length rest [] with
      | none => none
      | some kp =>
        match kp.2.dropWhile jsonWs with
        | ':' :: rest3 =>
          match parseVal fuel rest3 with
          | none => none
          | some vp =>
            match vp.2.dropWhile jsonWs with
            | ',' :: rest5 => parseObjItems fuel rest5 ((kp.1, vp.1) :: acc)
            | '\x7d' :: rest5 => some (.obj ((kp.1, vp.1) :: acc).reverse, rest5)
            | _ => none
        | _ => none
    | _ => none
end

/-- Modelled from the Python standard library `json.loads`: `none` stands for
a raised JSONDecodeError (including trailing data after the value). -/
def jsonParse (s : String) : Option JsonVal :=
  match parseVal (s.data.length + 1) s.data with
  | some pr => if (pr.2.dropWhile jsonWs).isEmpty then some pr.1 else none
  | none => none

/-- `MediaInfo` (scraper.py lines 36-40). The URL fields only ever receive
string values (every assignment passes through `_normalize_url` on a string,
or stores a response or element URL); `topic` and `start_time` store whatever
truthy JSON value the payload held, as the Python assignments do. -/
structure MediaInfo where
  video_url : Option String := none
  transcript_url : Option String := none
  title : String := "Zoom_Recording"
  topic : Option JsonVal := none
  start_time : Option JsonVal := none

/-- `MediaInfo()`: the freshly created accumulator of one session. -/
def initMediaInfo : MediaInfo := {}

/-- `ZoomMediaScraper._normalize_url` on a string (the falsy early return is
subsumed: the empty string has no `"/"` prefix and is returned unchanged). -/
def normalize_url (url : String) : String :=
  if "/".data.isPrefixOf url.data then ⟨"https://www.zoom.us".data ++ url.data⟩ else url

/-- `_normalize_url` applied to a truthy JSON value: on a non-string,
`.startswith` raises AttributeError (`.error ()`), which only the outer
`handle_response` try catches. -/
def normalize_url_val : JsonVal → Except Unit String
  | .str s => .ok (normalize_url s)
  | _ => .error ()

/-- `ZoomMediaScraper._sanitize_title`: replace path separators, colons and
spaces, then strip whitespace. -/
def sanitize_title (raw : String) : String :=
  ⟨pyStrip (raw.data.map fun c =>
      if c = '/' then '-' else if c = ':' then '-' else if c = ' ' then '_' else c)⟩

/-- Characters excluded by the URL regex class of `_find_urls_in_text`
(whitespace, double and single quote, angle brackets, backslash). -/
def urlStopChar (c : Char) : Bool :=
  isPySpace c || c = '"' || c = '\'' || c = '<' || c = '>' || c = '\\'

/-- After a matched scheme prefix, take the `[^\s"\'<>\\]+` body (at least one
character) and return the whole match with the remainder. -/
def urlTail (pre : List Char) (rest : List Char) : Option (List Char × List Char) :=
  let body := rest.takeWhile (fun c => !urlStopChar c)
  if body.isEmpty then none
  else some (pre ++ body, rest.drop body.length)

/-- Try to match the URL regex of `_find_urls_in_text` at this position. -/
def tryUrlAt (cs : List Char) : Option (List Char × List Char) :=
  if "https://".data.isPrefixOf cs then urlTail "https://".data (cs.drop 8)
  else if "http://".data.isPrefixOf cs then urlTail "http://".data (cs.drop 7)
  else none

/-- Modelled from the Python standard library: the left-to-right,
non-overlapping scan of `re.findall`. Fuel decreases every step; a match
always consumes at least one character, so `find_urls_in_text` supplies
enough fuel for any input. -/
def findUrlsGo : Nat → List Char → List String
  | 0, _ => []
  | _ + 1, [] => []
  | fuel + 1, c :: cs =>
    match tryUrlAt (c :: cs) with
    | some pr => (⟨pr.1⟩ : String) :: findUrlsGo fuel pr.2
    | none => findUrlsGo fuel cs

/-- `ZoomMediaScraper._find_urls_in_text`:
`re.findall(r'https?://[^\s"\'<>\\]+', text)`. -/
def find_urls_in_text (text : List Char) : List String :=
  findUrlsGo (text.length + 1) text

/-- Key lists scanned for a direct video URL (line 165 of scraper.py). -/
def videoKeys : List String := ["viewMp4Url", "mp4Url", "downloadUrl", "play_url", "fileUrl"]

/-- Key lists scanned for a transcript URL (lines 171-178 of scraper.py). -/
def transcriptKeys : List String :=
  ["viewVttUrl", "vttUrl", "closedCaptionUrl", "transcriptUrl", "subtitleUrl", "chatFileUrl"]

/-- One key-scan loop of `_capture_from_recording_api`: `field` is the current
value of the target MediaInfo field; the first truthy candidate is normalized,
assigned and the loop breaks. `.error` is an AttributeError escaping from
`_normalize_url` on a non-string candidate. -/
def scanKeys (fields : List (String × JsonVal)) (keys : List String)
    (field : Option String) : Except Unit (Option String) :=
  match keys with
  | [] => .ok field
  | k :: ks =>
    let val := (pyGet fields k).getD .null
    if jsonTruthy val && !optTruthy field then
      match normalize_url_val val with
      | .ok s => .ok (some s)
      | .error e => .error e
    else scanKeys fields ks field

/-- The transcript half of one recording_files iteration (line 189-190). -/
def recFileTrans (ftype : String) (dl : JsonVal) (v t : Option String) :
    Option String × Option String × Bool :=
  if (ftype = "TRANSCRIPT" || ftype = "VTT" || ftype = "CC") && jsonTruthy dl
      && !optTruthy t then
    match normalize_url_val dl with
    | .ok s => (v, some s, false)
    | .error _ => (v, t, true)
  else (v, t, false)

/-- One iteration of the recording_files loop (lines 184-190). The `Bool` is
true when an exception escaped (AttributeError on a non-dict entry, a
non-string `file_type`, or inside `_normalize_url`); assignments made before
the raise persist, mirroring Python's in-place mutation. -/
def recFileStep (rf : JsonVal) (v t : Option String) :
    Option String × Option String × Bool :=
  match rf with
  | .obj rfFields =>
    match (pyGet rfFields "file_type").getD (.str "") with
    | .str fs =>
      let ftype : String := ⟨pyUpper fs.data⟩
      let dlRaw := (pyGet rfFields "download_url").getD .null
      let dl := if jsonTruthy dlRaw then dlRaw else (pyGet rfFields "play_url").getD .null
      if ftype = "MP4" && jsonTruthy dl && !optTruthy v then
        match normalize_url_val dl with
        | .ok s => recFileTrans ftype dl (some s) t
        | .error _ => (v, t, true)
      else recFileTrans ftype dl v t
    | _ => (v, t, true)
  | _ => (v, t, true)

/-- The recording_files loop; stops at the first escaping exception, keeping
the state reached so far. -/
def recFilesLoop : List JsonVal → Option String → Option String →
    Option String × Option String × Bool
  | [], v, t => (v, t, false)
  | rf :: rest, v, t =>
    let st := recFileStep rf v t
    if st.2.2 then st else recFilesLoop rest st.1 st.2.1

/-- Lines 192-200 of scraper.py: meeting metadata. `topic` is assigned before
`_sanitize_title` can raise on a non-string value, so it persists then. -/
def metaStep (fields : List (String × JsonVal)) (mi : MediaInfo) : MediaInfo × Bool :=
  match (pyGet fields "meet").getD (.obj []) with
  | .obj meetFields =>
    let t1 := (pyGet meetFields "topic").getD .null
    let topic := if jsonTruthy t1 then t1 else (pyGet fields "topic").getD .null
    let st :=
      if jsonTruthy topic then
        let mi1 : MediaInfo := { mi with topic := some topic }
        match topic with
        | .str s => ({ mi1 with title := sanitize_title s }, false)
        | _ => (mi1, true)
      else (mi, false)
    if st.2 then st
    else
      let mi2 := st.1
      let s1 := (pyGet meetFields "meetingStartTimeStr").getD .null
      let start_str := if jsonTruthy s1 then s1
        else (pyGet fields "meetingStartTimeStr").getD .null
      if jsonTruthy start_str then ({ mi2 with start_time := some start_str }, false)
      else (mi2, false)
  | _ => (mi, true)

/-- `_capture_from_recording_api` on a successfully parsed `result` object
(lines 165-200); non-dict `result` raises at the first `.get`. The `Bool` is
true when an exception escaped to `handle_response`'s outer try. -/
def captureFromResult (result : JsonVal) (mi : MediaInfo) : MediaInfo × Bool :=
  match result with
  | .obj fields =>
    match scanKeys fields videoKeys mi.video_url with
    | .error _ => (mi, true)
    | .ok v =>
      let mi1 : MediaInfo := { mi with video_url := v }
      match scanKeys fields transcriptKeys mi1.transcript_url with
      | .error _ => (mi1, true)
      | .ok t =>
        let mi2 : MediaInfo := { mi1 with transcript_url := t }
        let rec2 :=
          match (pyGet fields "recording_files").getD (.arr []) with
          | .arr items => recFilesLoop items mi2.video_url mi2.transcript_url
          | .str s => (mi2.video_url, mi2.transcript_url, !s.isEmpty)
          | .obj o => (mi2.video_url, mi2.transcript_url, !o.isEmpty)
          | _ => (mi2.video_url, mi2.transcript_url, true)
        let mi3 : MediaInfo := { mi2 with video_url := rec2.1, transcript_url := rec2.2.1 }
        if rec2.2.2 then (mi3, true)
        else metaStep fields mi3
  | _ => (mi, true)

/-- `ZoomMediaScraper._capture_from_recording_api`: a JSONDecodeError, or the
AttributeError from `.get` on a non-dict payload, is caught by the in-function
try and returns quietly; everything after runs outside that try. -/
def capture_from_recording_api (body : String) (mi : MediaInfo) : MediaInfo × Bool :=
  match jsonParse body with
  | none => (mi, false)
  | some data =>
    match data with
    | .obj fields => captureFromResult ((pyGet fields "result").getD data) mi
    | _ => (mi, false)

/-- Lines 218-227 of scraper.py: the video half of the raw-body fallback. -/
def fallbackVideoStep (urls : List String) (mi : MediaInfo) : MediaInfo :=
  if !optTruthy mi.video_url then
    match urls.find? (fun u =>
        let low : String := ⟨pyLower u.data⟩
        (hasSubstr low ".mp4" || hasSubstr low "ssrweb") &&
        !hasSubstr low "thumbnail" && !hasSubstr low "avatar") with
    | some u => { mi with video_url := some u }
    | none => mi
  else mi

/-- Lines 229-234 of scraper.py: the transcript half of the raw-body fallback. -/
def fallbackTranscriptStep (urls : List String) (mi : MediaInfo) : MediaInfo :=
  if !optTruthy mi.transcript_url then
    match urls.find? (fun u =>
        let low : String := ⟨pyLower u.data⟩
        hasSubstr low ".vtt" || hasSubstr low "closedcaption") with
    | some u => { mi with transcript_url := some u }
    | none => mi
  else mi

/-- `ZoomMediaScraper._capture_from_json_fallback` (lines 218-234): heuristic
URL-pattern scan over the raw body text. -/
def capture_from_json_fallback (body : String) (mi : MediaInfo) : MediaInfo :=
  let urls := find_urls_in_text body.data
  fallbackTranscriptStep urls (fallbackVideoStep urls mi)

/-- One network exchange as seen by `handle_response`: the response URL, the
content-type header (empty when absent), and the body (`none` when
`response.text()` raises). -/
structure Exchange where
  url : String
  contentType : String
  body : Option String

/-- Lines 305-322 of scraper.py, from the content-type gate on: the non-JSON
early return (with its media-content-type check), the body read, the
recording-API capture (an exception escaping it is caught by the outer try,
ending the handler early), the raw-body fallback, and the final
media-content-type check. -/
def handleTail (response : Exchange) (resp_url : String) (mi : MediaInfo) : MediaInfo :=
  if !hasSubstr response.contentType "json" then
    if hasSubstr response.contentType "video/" && !optTruthy mi.video_url then
      { mi with video_url := some response.url }
    else mi
  else
    match response.body with
    | none => mi
    | some body =>
      let pr :=
        if hasSubstr resp_url "nws/recording" || hasSubstr resp_url "play/info" then
          capture_from_recording_api body mi
        else (mi, false)
      if pr.2 then pr.1
      else
        let mi2 := capture_from_json_fallback body pr.1
        if hasSubstr response.contentType "video/" && !optTruthy mi2.video_url then
          { mi2 with video_url := some response.url }
        else mi2

/-- The `handle_response` callback (lines 277-325 of scraper.py): URL
heuristics on the lowercased response URL, then `handleTail`. -/
def handle_response (response : Exchange) (mi0 : MediaInfo) : MediaInfo :=
  let resp_url : String := ⟨pyLower response.url.data⟩
  let mi :=
    if hasSubstr resp_url ".mp4" && !optTruthy mi0.video_url then
      if !hasSubstr resp_url "thumbnail" && !hasSubstr resp_url "avatar" then
        { mi0 with video_url := some response.url }
      else mi0
    else mi0
  let mi :=
    if hasSubstr resp_url ".vtt" && !optTruthy mi.transcript_url then
      { mi with transcript_url := some response.url }
    else mi
  handleTail response resp_url mi

/-- The DOM video fallback loop (lines 359-369), entered only when no video
URL was captured: each probe is the `src` attribute of the first element the
selector matched (`none` when the query failed, matched nothing, or the
attribute was absent). -/
def domVideoLoop : List (Option String) → MediaInfo → MediaInfo
  | [], mi => mi
  | p :: ps, mi =>
    match p with
    | some src =>
      if !src.isEmpty && !hasSubstr src "blob:" then { mi with video_url := some src }
      else domVideoLoop ps mi
    | none => domVideoLoop ps mi

/-- The caption-track fallback (lines 371-379). -/
def trackStep (probe : Option String) (mi : MediaInfo) : MediaInfo :=
  match probe with
  | some src => if !src.isEmpty then { mi with transcript_url := some src } else mi
  | none => mi

/-- `re.sub(r"_*-_*Zoom$", "", clean, flags=re.IGNORECASE)`: remove a trailing
underscore-dash-underscore Zoom branding suffix, working on the reversal. -/
def stripZoomSuffix (s : String) : String :=
  match s.data.reverse with
  | m :: o1 :: o2 :: z :: rest =>
    if m.toLower = 'm' && o1.toLower = 'o' && o2.toLower = 'o' && z.toLower = 'z' then
      match rest.dropWhile (fun c => c = '_') with
      | '-' :: r2 => ⟨(r2.dropWhile (fun c => c = '_')).reverse⟩
      | _ => s
    else s
  | _ => s

/-- Python `str.strip(chars)`: drop characters of `chars` from both ends. -/
def pyStripSet (chars : List Char) (l : List Char) : List Char :=
  ((l.dropWhile (fun c => chars.contains c)).reverse.dropWhile
      (fun c => chars.contains c)).reverse

/-- The page-title fallback (lines 381-390): `rawTitle` is the displayed page
title (`none` when `page.title()` raises). -/
def titleStep (rawTitle : Option String) (mi : MediaInfo) : MediaInfo :=
  if mi.title = "Zoom_Recording" then
    match rawTitle with
    | some raw =>
      if !raw.isEmpty then
        let clean := sanitize_title raw
        let clean2 : String := ⟨pyStripSet "_- ".data (stripZoomSuffix clean).data⟩
        if !clean2.isEmpty && !hasSubstr ⟨pyLower clean2.data⟩ "sign" then
          { mi with title := clean2 }
        else mi
      else mi
    | none => mi
  else mi

/-- One extraction session after navigation (`extract_media_info`, lines
327-392): every intercepted exchange runs `handle_response` in order; then the
DOM video fallback (only when no video URL), the caption-track fallback (only
when no transcript URL), and the title fallback. -/
def runSession (exchanges : List Exchange) (videoProbes : List (Option String))
    (trackProbe : Option String) (rawTitle : Option String) (mi : MediaInfo) : MediaInfo :=
  let mi1 := exchanges.foldl (fun m r => handle_response r m) mi
  let mi2 := if !optTruthy mi1.video_url then domVideoLoop videoProbes mi1 else mi1
  let mi3 := if !optTruthy mi2.transcript_url then trackStep trackProbe mi2 else mi2
  titleStep rawTitle mi3

/-! ## Claim theorems -/

/-- C5 counterexample: a freshly created MediaResult's title is
"Zoom_Recording", not the "Untitled_Recording" the claim states. -/
theorem C5_counterexample :
    initMediaInfo.title = "Zoom_Recording" ∧
    initMediaInfo.title ≠ "Untitled_Recording" :=
  ⟨rfl, by decide⟩

/-- C5 (amended): a freshly created MediaResult has videoUrl, transcriptUrl,
topic and startTime unset, and its title equals the default sentinel
"Zoom_Recording". -/
theorem C5_fresh_media_info :
    initMediaInfo.video_url = none ∧ initMediaInfo.transcript_url = none ∧
    initMediaInfo.topic = none ∧ initMediaInfo.start_time = none ∧
    initMediaInfo.title = "Zoom_Recording" :=
  ⟨rfl, rfl, rfl, rfl, rfl⟩

/-- C4: classifying a structured payload whose recording_files list holds an
MP4 record and a VTT record, from a result with both URL fields unset, sets
videoUrl and transcriptUrl to the download URLs; the file-type label is
matched case-insensitively (second conjunct, lowercase labels) and the
download URL is preferred over the play URL when both are present. -/
theorem C4_recording_files_classification :
    ((captureFromResult (.obj [("recording_files", .arr
        [.obj [("file_type", .str "MP4"), ("download_url", .str "http://x/a.mp4")],
         .obj [("file_type", .str "VTT"), ("download_url", .str "http://x/a.vtt")]])])
        initMediaInfo).1.video_url = some "http://x/a.mp4" ∧
     (captureFromResult (.obj [("recording_files", .arr
        [.obj [("file_type", .str "MP4"), ("download_url", .str "http://x/a.mp4")],
         .obj [("file_type", .str "VTT"), ("download_url", .str "http://x/a.vtt")]])])
        initMediaInfo).1.transcript_url = some "http://x/a.vtt") ∧
    ((captureFromResult (.obj [("recording_files", .arr
        [.obj [("file_type", .str "mp4"), ("download_url", .str "http://x/b.mp4"),
               ("play_url", .str "http://x/p.mp4")],
         .obj [("file_type", .str "cc"), ("play_url", .str "http://x/c.vtt")]])])
        initMediaInfo).1.video_url = some "http://x/b.mp4" ∧
     (captureFromResult (.obj [("recording_files", .arr
        [.obj [("file_type", .str "mp4"), ("download_url", .str "http://x/b.mp4"),
               ("play_url", .str "http://x/p.mp4")],
         .obj [("file_type", .str "cc"), ("play_url", .str "http://x/c.vtt")]])])
        initMediaInfo).1.transcript_url = some "http://x/c.vtt") :=
  ⟨⟨rfl, rfl⟩, ⟨rfl, rfl⟩⟩

/-- C2 counterexample: an exchange whose content type declares JSON and whose
body fails to parse as structured data still changes the result — the
raw-body URL-pattern fallback runs for that exchange and sets videoUrl from
the unparseable body. -/
theorem C2_counterexample :
    jsonParse "xx https://h.example/v.MP4 yy" = none ∧
    hasSubstr "application/json" "json" = true ∧
    (handle_response ⟨"https://z.example/nws/recording/x", "application/json",
        some "xx https://h.example/v.MP4 yy"⟩ initMediaInfo).video_url =
      some "https://h.example/v.MP4" :=
  ⟨rfl, rfl, rfl⟩

/-- C2 (amended): when the body fails to parse as structured data, the
structured recording-API extraction contributes nothing — it returns the
result unchanged and raises nothing; only the gating of the raw-body
fallback claimed by the spec does not hold (see the counterexample). -/
theorem C2_parse_failure_stops_structured_extraction :
    ∀ (body : String) (mi : MediaInfo), jsonParse body = none →
      capture_from_recording_api body mi = (mi, false) := by
  intro body mi h
  simp [capture_from_recording_api, h]

/-- Witness for C2 (amended) at a concrete unparseable body. -/
theorem C2_parse_failure_witness :
    capture_from_recording_api "not json" initMediaInfo = (initMediaInfo, false) :=
  C2_parse_failure_stops_structured_extraction "not json" initMediaInfo rfl

/-- The outer scan loop consumes at least one line per emitted cue: the cue
count is bounded by the line count, by strong induction on the line count. -/
theorem parseLines_length_le_aux :
    ∀ (n : Nat) (ls : List (List Char)), ls.length ≤ n → (parseLines ls).length ≤ ls.length := by
  intro n
  induction n with
  | zero =>
    intro ls h
    have h0 : ls = [] := List.length_eq_zero.mp (Nat.le_zero.mp h)
    subst h0
    simp [parseLines.eq_def]
  | succ n ih =>
    intro ls hlen
    cases ls with
    | nil => simp [parseLines.eq_def]
    | cons l rest =>
      have hrest : rest.length ≤ n := by
        simp only [List.length_cons] at hlen; omega
      rw [parseLines.eq_def]
      simp only [List.length_cons]
      split
      · exact Nat.le_succ_of_le (ih rest hrest)
      · split
        · have hcc := collectCaption_rem_length rest
          split
          · have := ih (collectCaption rest).2 (by omega)
            omega
          · simp only [List.length_cons]
            have := ih (collectCaption rest).2 (by omega)
            omega
        · split
          · simp
          · next next0 rest2 =>
            have hr2 : rest2.length + 1 ≤ n := by
              simp only [List.length_cons] at hrest; omega
            have hcc := collectCaption_rem_length rest2
            split
            · split
              · have := ih (collectCaption rest2).2 (by omega)
                simp only [List.length_cons]
                omega
              · simp only [List.length_cons]
                have := ih (collectCaption rest2).2 (by omega)
                omega
            · have := ih (next0 :: rest2) (by simp only [List.length_cons]; omega)
              simp only [List.length_cons] at this ⊢
              omega

/-- C10: the parser is a total function of the input (it is defined by
well-founded recursion on the remaining lines, each outer step strictly
consuming at least one line), and its finite cue sequence holds at most one
cue per input line. -/
theorem C10_parser_total_and_bounded :
    ∀ s : String, (parse_vtt_cues s).length ≤ (vttLines s).length := by
  intro s
  exact parseLines_length_le_aux (vttLines s).length (vttLines s) le_rfl

/-- C7 counterexample: on an input with a byte-order mark in the middle of a
caption line, the parser differs from the leading-only-strip variant the
claim describes — preprocessing removed the non-leading BOM as well. -/
theorem C7_counterexample :
    parse_vtt_cues "WEBVTT\n\n00:00:01.000 --> 00:00:02.000\nA\uFEFFB" ≠
      parse_vtt_cues_leadingBOM "WEBVTT\n\n00:00:01.000 --> 00:00:02.000\nA\uFEFFB" := by
  have e1 : parse_vtt_cues "WEBVTT\n\n00:00:01.000 --> 00:00:02.000\nA\uFEFFB" =
      [⟨"00:00:01.000 --> 00:00:02.000", "AB"⟩] := by
    simp [parse_vtt_cues, vttLines, removeBOM, pySplitlines, splitGo, parseLines,
      collectCaption, clean_caption_line, pyStrip, collapseWs, collapseAux, pyUnescape,
      stripTags, tagMatchEnd, skipToGt, matchEntity, entityTable, joinWith, pyUpper,
      pyLower, listHasInfix, isPySpace, isLineBoundary]
  have e2 : parse_vtt_cues_leadingBOM "WEBVTT\n\n00:00:01.000 --> 00:00:02.000\nA\uFEFFB" =
      [⟨"00:00:01.000 --> 00:00:02.000", "A\uFEFFB"⟩] := by
    simp [parse_vtt_cues_leadingBOM, stripLeadingBOM, pySplitlines, splitGo, parseLines,
      collectCaption, clean_caption_line, pyStrip, collapseWs, collapseAux, pyUnescape,
      stripTags, tagMatchEnd, skipToGt, matchEntity, entityTable, joinWith, pyUpper,
      pyLower, listHasInfix, isPySpace, isLineBoundary]
  rw [e1, e2]
  decide

/-- C7 (amended): preprocessing removes every byte-order mark anywhere in the
input, so parse is invariant under removing all BOMs beforehand. -/
theorem C7_bom_removed_everywhere :
    ∀ s : String, parse_vtt_cues ⟨removeBOM s.data⟩ = parse_vtt_cues s := by
  intro s
  simp [parse_vtt_cues, vttLines, removeBOM, List.filter_filter]

/-- Inserting a cue whose text equals the immediately preceding cue's text
does not change the accumulated chunk list, from any accumulator state. -/
theorem chunksAux_adjacent_dup (c c2 : VTTCue) (h : c2.text = c.text) :
    ∀ (pre : List VTTCue) (prev : Option String) (post : List VTTCue),
      chunksAux prev (pre ++ c :: c2 :: post) = chunksAux prev (pre ++ c :: post) := by
  intro pre
  induction pre with
  | nil =>
    intro prev post
    simp only [List.nil_append, chunksAux]
    by_cases hc : some c.text = prev
    · simp [chunksAux, hc, h]
    · simp [chunksAux, hc, h]
  | cons a pre ih =>
    intro prev post
    simp only [List.cons_append, chunksAux]
    by_cases ha : some a.text = prev
    · simp [ha, ih]
    · simp [ha, ih]

/-- C6: toParagraph suppresses adjacent duplicates only — on the cue texts
Hi, Hi, Bye it yields "Hi Bye" (first conjunct), and in general dropping a
cue that repeats the text of the cue right before it never changes the
paragraph (second conjunct). -/
theorem C6_paragraph_adjacent_dedup :
    (∀ t1 t2 t3 : String,
      paragraphOfCues [⟨t1, "Hi"⟩, ⟨t2, "Hi"⟩, ⟨t3, "Bye"⟩] = "Hi Bye") ∧
    (∀ (pre : List VTTCue) (c c2 : VTTCue) (post : List VTTCue), c2.text = c.text →
      paragraphOfCues (pre ++ c :: c2 :: post) = paragraphOfCues (pre ++ c :: post)) := by
  constructor
  · intro t1 t2 t3
    simp [paragraphOfCues, chunksAux, joinWith, pyStrip, collapseWs, collapseAux, isPySpace]
  · intro pre c c2 post h
    unfold paragraphOfCues
    rw [chunksAux_adjacent_dup c c2 h pre none post]

/-- Witness for C6 at concrete cues: the spec's example, and an adjacent
duplicate being dropped. -/
theorem C6_witness :
    paragraphOfCues [⟨"t1", "Hi"⟩, ⟨"t2", "Hi"⟩, ⟨"t3", "Bye"⟩] = "Hi Bye" ∧
    paragraphOfCues [⟨"a", "Hi"⟩, ⟨"b", "Hi"⟩] = paragraphOfCues [⟨"a", "Hi"⟩] :=
  ⟨C6_paragraph_adjacent_dedup.1 "t1" "t2" "t3",
   C6_paragraph_adjacent_dedup.2 [] ⟨"a", "Hi"⟩ ⟨"b", "Hi"⟩ [] rfl⟩

/-- `str.strip()` is a no-op on a list whose first and last characters are
not whitespace. -/
theorem strip_noop_of_edges {l : List Char}
    (h1 : ∀ c, l.head? = some c → isPySpace c = false)
    (h2 : ∀ c, l.getLast? = some c → isPySpace c = false) : pyStrip l = l := by
  unfold pyStrip
  have e1 : l.dropWhile isPySpace = l := by
    cases l with
    | nil => rfl
    | cons a l => simp [List.dropWhile_cons, h1 a rfl]
  rw [e1]
  have e2 : l.reverse.dropWhile isPySpace = l.reverse := by
    cases hr : l.reverse with
    | nil => rfl
    | cons a r =>
      have ha : l.getLast? = some a := by
        rw [← List.head?_reverse, hr]; rfl
      simp [List.dropWhile_cons, hr, h2 a ha]
  rw [e2, List.reverse_reverse]

/-- C8: toTimestampedText yields exactly one newline on no cues, always ends
with a newline, and renders a single cue with text "Hi" verbatim as
timestamp, newline, text, newline (for any timestamp that is non-empty and
does not start with whitespace, as every parser-produced timestamp is). -/
theorem C8_timestamped_rendering :
    timestampedOfCues [] = "\n" ∧
    (∀ cues : List VTTCue, ∃ p : String, timestampedOfCues cues = p ++ "\n") ∧
    (∀ (t1 : String) (c : Char) (cs : List Char), t1.data = c :: cs →
      isPySpace c = false → timestampedOfCues [⟨t1, "Hi"⟩] = t1 ++ "\nHi\n") := by
  refine ⟨rfl, fun cues => ⟨_, rfl⟩, ?_⟩
  intro t1 c cs hdata hsp
  show (⟨pyStrip (t1.data ++ '\n' :: "Hi".data)⟩ : String) ++ "\n" = t1 ++ "\nHi\n"
  rw [strip_noop_of_edges]
  · apply String.ext
    simp [String.data_append]
  · intro d hd
    rw [hdata] at hd
    simp at hd
    rw [← hd]; exact hsp
  · intro d hd
    rw [List.getLast?_append] at hd
    simp at hd
    rw [← hd]; decide

/-- Witness for C8 at the concrete timestamp "00:01". -/
theorem C8_witness : timestampedOfCues [⟨"00:01", "Hi"⟩] = "00:01" ++ "\nHi\n" :=
  C8_timestamped_rendering.2.2 "00:01" '0' "0:01".data rfl rfl

/-- C3: parsing the given WEBVTT input yields exactly one cue whose timestamp
is the verbatim timing line and whose text is the cleaned caption text. -/
theorem C3_parse_single_cue :
    parse_vtt_cues "WEBVTT\n\n00:00:01.000 --> 00:00:02.000\nHello <b>world</b>\n\n" =
      [⟨"00:00:01.000 --> 00:00:02.000", "Hello world"⟩] := by
  simp [parse_vtt_cues, vttLines, removeBOM, pySplitlines, splitGo, parseLines,
    collectCaption, clean_caption_line, pyStrip, collapseWs, collapseAux, pyUnescape,
    stripTags, tagMatchEnd, skipToGt, matchEntity, entityTable, joinWith, pyUpper,
    pyLower, listHasInfix, isPySpace, isLineBoundary]

/-- Head character of the single-space normalization applied after a
whitespace run has begun is never whitespace. -/
theorem collapseAux_true_head :
    ∀ (cs : List Char) (c : Char), (collapseAux true cs).head? = some c → isPySpace c = false := by
  intro cs
  induction cs with
  | nil => intro c h; simp [collapseAux] at h
  | cons a cs ih =>
    intro c h
    by_cases pa : isPySpace a
    · rw [show collapseAux true (a :: cs) = collapseAux true cs by simp [collapseAux, pa]] at h
      exact ih c h
    · rw [show collapseAux true (a :: cs) = a :: collapseAux false cs by
        simp [collapseAux, pa]] at h
      simp at h
      rw [← h]
      simpa using pa

theorem collapseAux_flag_eq (cs : List Char)
    (h : ∀ c, cs.head? = some c → isPySpace c = false) :
    collapseAux true cs = collapseAux false cs := by
  cases cs with
  | nil => rfl
  | cons a cs => simp [collapseAux, h a rfl]

theorem collapseAux_idem : ∀ (b : Bool) (cs : List Char),
    collapseAux false (collapseAux b cs) = collapseAux b cs := by
  intro b cs
  induction cs generalizing b with
  | nil => simp [collapseAux]
  | cons a cs ih =>
    by_cases pa : isPySpace a
    · cases b with
      | true =>
        rw [show collapseAux true (a :: cs) = collapseAux true cs by simp [collapseAux, pa]]
        exact ih true
      | false =>
        rw [show collapseAux false (a :: cs) = ' ' :: collapseAux true cs by
          simp [collapseAux, pa]]
        rw [show collapseAux false (' ' :: collapseAux true cs) =
            ' ' :: collapseAux true (collapseAux true cs) by simp [collapseAux, isPySpace]]
        rw [collapseAux_flag_eq _ (collapseAux_true_head cs), ih true]
    · rw [show collapseAux b (a :: cs) = a :: collapseAux false cs by simp [collapseAux, pa]]
      rw [show collapseAux false (a :: collapseAux false cs) =
          a :: collapseAux false (collapseAux false cs) by simp [collapseAux, pa]]
      rw [ih false]

theorem collapseAux_ne_nil :
    ∀ (b : Bool) (cs : List Char) (c : Char), cs.getLast? = some c → isPySpace c = false →
      collapseAux b cs ≠ [] := by
  intro b cs
  induction cs generalizing b with
  | nil => intro c h; simp at h
  | cons a cs ih =>
    intro c hlast hc
    cases cs with
    | nil =>
      simp at hlast
      subst hlast
      simp [collapseAux, hc]
    | cons a2 cs2 =>
      have hlast2 : (a2 :: cs2).getLast? = some c := by
        rw [← List.getLast?_cons_cons (a := a)]; exact hlast
      by_cases pa : isPySpace a
      · cases b with
        | true =>
          rw [show collapseAux true (a :: a2 :: cs2) = collapseAux true (a2 :: cs2) by
            simp [collapseAux, pa]]
          exact ih true c hlast2 hc
        | false => simp [collapseAux, pa]
      · simp [collapseAux, pa]

theorem collapseAux_getLast :
    ∀ (b : Bool) (cs : List Char) (c : Char), cs.getLast? = some c → isPySpace c = false →
      ∀ d, (collapseAux b cs).getLast? = some d → isPySpace d = false := by
  intro b cs
  induction cs generalizing b with
  | nil => intro c h; simp at h
  | cons a cs ih =>
    intro c hlast hc d hd
    cases cs with
    | nil =>
      simp at hlast
      subst hlast
      rw [show collapseAux b [a] = [a] by simp [collapseAux, hc]] at hd
      simp at hd
      rw [← hd]; exact hc
    | cons a2 cs2 =>
      have hlast2 : (a2 :: cs2).getLast? = some c := by
        rw [← List.getLast?_cons_cons (a := a)]; exact hlast
      by_cases pa : isPySpace a
      · cases b with
        | true =>
          rw [show collapseAux true (a :: a2 :: cs2) = collapseAux true (a2 :: cs2) by
            simp [collapseAux, pa]] at hd
          exact ih true c hlast2 hc d hd
        | false =>
          rw [show collapseAux false (a :: a2 :: cs2) = ' ' :: collapseAux true (a2 :: cs2) by
            simp [collapseAux, pa]] at hd
          cases hX : collapseAux true (a2 :: cs2) with
          | nil => exact absurd hX (collapseAux_ne_nil true (a2 :: cs2) c hlast2 hc)
          | cons x xs =>
            rw [hX, List.getLast?_cons_cons] at hd
            rw [← hX] at hd
            exact ih true c hlast2 hc d hd
      · rw [show collapseAux b (a :: a2 :: cs2) = a :: collapseAux false (a2 :: cs2) by
          simp [collapseAux, pa]] at hd
        cases hX : collapseAux false (a2 :: cs2) with
        | nil => exact absurd hX (collapseAux_ne_nil false (a2 :: cs2) c hlast2 hc)
        | cons x xs =>
          rw [hX, List.getLast?_cons_cons] at hd
          rw [← hX] at hd
          exact ih false c hlast2 hc d hd

theorem dropWhile_head_false {p : Char → Bool} :
    ∀ (l : List Char) (c : Char) (l' : List Char), l.dropWhile p = c :: l' → p c = false := by
  intro l
  induction l with
  | nil => intro c l' h; simp at h
  | cons a l ih =>
    intro c l' h
    by_cases pa : p a
    · rw [List.dropWhile_cons, if_pos pa] at h
      exact ih c l' h
    · rw [List.dropWhile_cons, if_neg pa] at h
      have hca : c = a := (List.cons.injEq a l c l' ▸ h).1.symm
      subst hca
      simpa using pa

theorem pyStrip_getLast :
    ∀ (l : List Char) (c : Char), (pyStrip l).getLast? = some c → isPySpace c = false := by
  intro l c h
  unfold pyStrip at h
  rw [List.getLast?_reverse] at h
  cases hd : (l.dropWhile isPySpace).reverse.dropWhile isPySpace with
  | nil => rw [hd] at h; simp at h
  | cons x xs =>
    rw [hd] at h
    simp at h
    rw [← h]
    exact dropWhile_head_false _ x xs hd

theorem pyStrip_head :
    ∀ (l : List Char) (c : Char), (pyStrip l).head? = some c → isPySpace c = false := by
  intro l c h
  unfold pyStrip at h
  rw [List.head?_reverse] at h
  -- h : ((l.dropWhile p).reverse.dropWhile p).getLast? = some c
  obtain ⟨t, ht⟩ := List.dropWhile_suffix (l := (l.dropWhile isPySpace).reverse) isPySpace
  cases hd : (l.dropWhile isPySpace).reverse.dropWhile isPySpace with
  | nil => rw [hd] at h; simp at h
  | cons x xs =>
    rw [hd] at h
    -- getLast? of suffix = getLast? of whole (nonempty): use ht : t ++ dropWhile = reverse
    have hwhole : ((l.dropWhile isPySpace).reverse).getLast? = some c := by
      rw [← ht, List.getLast?_append, hd, ← h]
      cases hgl : (x :: xs).getLast? with
      | none => simp at hgl
      | some z => simp [hgl]
    rw [List.getLast?_reverse] at hwhole
    cases hdw : l.dropWhile isPySpace with
    | nil => rw [hdw] at hwhole; simp at hwhole
    | cons y ys =>
      rw [hdw] at hwhole
      simp at hwhole
      rw [← hwhole]
      exact dropWhile_head_false l y ys hdw

theorem collapseWs_head (l : List Char)
    (h : ∀ c, l.head? = some c → isPySpace c = false) :
    ∀ c, (collapseWs l).head? = some c → isPySpace c = false := by
  intro c hc
  cases l with
  | nil => simp [collapseWs, collapseAux] at hc
  | cons a l =>
    have ha := h a rfl
    rw [show collapseWs (a :: l) = a :: collapseAux false l by
      simp [collapseWs, collapseAux, ha]] at hc
    simp at hc
    rw [← hc]; exact ha

theorem collapse_strip_idem (j : List Char) :
    collapseWs (pyStrip (collapseWs (pyStrip j))) = collapseWs (pyStrip j) := by
  have hzh := collapseWs_head (pyStrip j) (pyStrip_head j)
  have hzl : ∀ c, (collapseWs (pyStrip j)).getLast? = some c → isPySpace c = false := by
    intro c hzc
    cases hy : (pyStrip j).getLast? with
    | none =>
      have : pyStrip j = [] := by
        cases hj : pyStrip j with
        | nil => rfl
        | cons a l => rw [hj] at hy; simp [List.getLast?] at hy
      rw [this] at hzc
      simp [collapseWs, collapseAux] at hzc
    | some cy =>
      exact collapseAux_getLast false (pyStrip j) cy hy (pyStrip_getLast j cy hy) c hzc
  rw [strip_noop_of_edges hzh hzl]
  exact collapseAux_idem false (pyStrip j)

/-- C9: toParagraph is idempotent on its own output — re-running it on a
single cue carrying the produced paragraph (under any timestamp) returns the
same string. -/
theorem C9_paragraph_idempotent :
    ∀ (cues : List VTTCue) (t : String),
      paragraphOfCues [⟨t, paragraphOfCues cues⟩] = paragraphOfCues cues := by
  intro cues t
  conv_lhs => rw [paragraphOfCues]
  rw [show chunksAux none [⟨t, paragraphOfCues cues⟩] = [paragraphOfCues cues] by
    simp [chunksAux]]
  rw [show ([paragraphOfCues cues].map String.data) = [(paragraphOfCues cues).data] by simp]
  rw [show joinWith [' '] [(paragraphOfCues cues).data] = (paragraphOfCues cues).data by
    simp [joinWith]]
  rw [show (paragraphOfCues cues).data =
    collapseWs (pyStrip (joinWith [' '] ((chunksAux none cues).map String.data))) from rfl]
  rw [collapse_strip_idem]
  rfl

theorem fallbackVideoStep_v (urls : List String) (mi : MediaInfo)
    (h : optTruthy mi.video_url = true) : fallbackVideoStep urls mi = mi := by
  unfold fallbackVideoStep
  simp only [h, Bool.not_true, Bool.false_eq_true, if_false]

theorem fallbackVideoStep_t (urls : List String) (mi : MediaInfo) :
    (fallbackVideoStep urls mi).transcript_url = mi.transcript_url := by
  unfold fallbackVideoStep
  repeat' split
  all_goals simp

theorem fallbackTranscriptStep_t (urls : List String) (mi : MediaInfo)
    (h : optTruthy mi.transcript_url = true) : fallbackTranscriptStep urls mi = mi := by
  unfold fallbackTranscriptStep
  simp only [h, Bool.not_true, Bool.false_eq_true, if_false]

theorem fallbackTranscriptStep_v (urls : List String) (mi : MediaInfo) :
    (fallbackTranscriptStep urls mi).video_url = mi.video_url := by
  unfold fallbackTranscriptStep
  repeat' split
  all_goals simp

theorem fallback_v (body : String) (mi : MediaInfo) (h : optTruthy mi.video_url = true) :
    (capture_from_json_fallback body mi).video_url = mi.video_url := by
  unfold capture_from_json_fallback
  dsimp only
  rw [fallbackVideoStep_v _ _ h, fallbackTranscriptStep_v]

theorem fallback_t (body : String) (mi : MediaInfo)
    (h : optTruthy mi.transcript_url = true) :
    (capture_from_json_fallback body mi).transcript_url = mi.transcript_url := by
  unfold capture_from_json_fallback
  dsimp only
  have h2 : optTruthy (fallbackVideoStep (find_urls_in_text body.data) mi).transcript_url
      = true := by rw [fallbackVideoStep_t]; exact h
  rw [fallbackTranscriptStep_t _ _ h2, fallbackVideoStep_t]

theorem scanKeys_pres (fields : List (String × JsonVal)) (keys : List String)
    (field : Option String) (h : optTruthy field = true) :
    scanKeys fields keys field = .ok field := by
  induction keys with
  | nil => rfl
  | cons k ks ih =>
    unfold scanKeys
    simp only [h, Bool.not_true, Bool.and_false, Bool.false_eq_true, if_false]
    exact ih

theorem recFileTrans_v (ftype : String) (dl : JsonVal) (v t : Option String) :
    (recFileTrans ftype dl v t).1 = v := by
  unfold recFileTrans
  split
  · split <;> rfl
  · rfl

theorem recFileTrans_t (ftype : String) (dl : JsonVal) (v t : Option String)
    (h : optTruthy t = true) : (recFileTrans ftype dl v t).2.1 = t := by
  unfold recFileTrans
  simp only [h, Bool.not_true, Bool.and_false, Bool.false_eq_true, if_false]

theorem recFileStep_v (rf : JsonVal) (v t : Option String) (h : optTruthy v = true) :
    (recFileStep rf v t).1 = v := by
  simp only [recFileStep]
  repeat' split
  all_goals first | rfl | exact recFileTrans_v _ _ _ _ | simp_all

theorem recFileStep_t (rf : JsonVal) (v t : Option String) (h : optTruthy t = true) :
    (recFileStep rf v t).2.1 = t := by
  simp only [recFileStep]
  repeat' split
  all_goals first | rfl | exact recFileTrans_t _ _ _ _ h | simp_all

theorem recFilesLoop_v (items : List JsonVal) :
    ∀ (v t : Option String), optTruthy v = true → (recFilesLoop items v t).1 = v := by
  induction items with
  | nil => intro v t h; rfl
  | cons rf rest ih =>
    intro v t h
    have hv := recFileStep_v rf v t h
    simp only [recFilesLoop]
    split
    · exact hv
    · have h2 : optTruthy (recFileStep rf v t).1 = true := by rw [hv]; exact h
      rw [ih _ _ h2, hv]

theorem recFilesLoop_t (items : List JsonVal) :
    ∀ (v t : Option String), optTruthy t = true → (recFilesLoop items v t).2.1 = t := by
  induction items with
  | nil => intro v t h; rfl
  | cons rf rest ih =>
    intro v t h
    have ht := recFileStep_t rf v t h
    simp only [recFilesLoop]
    split
    · exact ht
    · have h2 : optTruthy (recFileStep rf v t).2.1 = true := by rw [ht]; exact h
      rw [ih _ _ h2, ht]

theorem metaStep_urls (fields : List (String × JsonVal)) (mi : MediaInfo) :
    (metaStep fields mi).1.video_url = mi.video_url ∧
    (metaStep fields mi).1.transcript_url = mi.transcript_url := by
  simp only [metaStep]
  repeat' split
  all_goals simp

theorem captureFromResult_v (r : JsonVal) (mi : MediaInfo)
    (h : optTruthy mi.video_url = true) :
    (captureFromResult r mi).1.video_url = mi.video_url := by
  simp only [captureFromResult]
  split
  · rw [scanKeys_pres _ _ _ h]
    split
    · next e he => simp at he
    · next v hv =>
      have hveq : v = mi.video_url := by cases hv; rfl
      subst hveq
      split
      · simp
      · next t ht =>
        repeat' split
        all_goals simp [recFilesLoop_v _ _ _ h, metaStep_urls]
  · rfl

theorem captureFromResult_t (r : JsonVal) (mi : MediaInfo)
    (h : optTruthy mi.transcript_url = true) :
    (captureFromResult r mi).1.transcript_url = mi.transcript_url := by
  simp only [captureFromResult]
  split
  · split
    · next e he => rfl
    · next v hv =>
      have h1 : optTruthy ({ mi with video_url := v } : MediaInfo).transcript_url = true := h
      rw [scanKeys_pres _ _ _ h1]
      split
      · next e he => simp at he
      · next t ht =>
        have hteq : t = mi.transcript_url := by cases ht; rfl
        subst hteq
        repeat' split
        all_goals simp [recFilesLoop_t _ _ _ h, metaStep_urls]
  · rfl

theorem capture_api_v (body : String) (mi : MediaInfo) (h : optTruthy mi.video_url = true) :
    (capture_from_recording_api body mi).1.video_url = mi.video_url := by
  unfold capture_from_recording_api
  split
  · rfl
  · split
    · exact captureFromResult_v _ _ h
    · rfl

theorem capture_api_t (body : String) (mi : MediaInfo)
    (h : optTruthy mi.transcript_url = true) :
    (capture_from_recording_api body mi).1.transcript_url = mi.transcript_url := by
  unfold capture_from_recording_api
  split
  · rfl
  · split
    · exact captureFromResult_t _ _ h
    · rfl

theorem handleTail_v (r : Exchange) (u : String) (mi : MediaInfo)
    (h : optTruthy mi.video_url = true) :
    (handleTail r u mi).video_url = mi.video_url := by
  unfold handleTail
  split
  · simp only [h, Bool.not_true, Bool.and_false, Bool.false_eq_true, if_false]
  · split
    · rfl
    · next body hbody =>
      dsimp only
      generalize hgen : (if (hasSubstr u "nws/recording" || hasSubstr u "play/info") = true
          then capture_from_recording_api body mi else (mi, false)) = pr
      have hv1 : pr.1.video_url = mi.video_url := by
        rw [← hgen]
        split
        · exact capture_api_v _ _ h
        · rfl
      have hv1t : optTruthy pr.1.video_url = true := by rw [hv1]; exact h
      split
      · exact hv1
      · have hv2 : (capture_from_json_fallback body pr.1).video_url = pr.1.video_url :=
          fallback_v _ _ hv1t
        have hv2t : optTruthy (capture_from_json_fallback body pr.1).video_url = true := by
          rw [hv2]; exact hv1t
        simp only [hv2t, Bool.not_true, Bool.and_false, Bool.false_eq_true, if_false]
        rw [hv2, hv1]

theorem handleTail_t (r : Exchange) (u : String) (mi : MediaInfo)
    (h : optTruthy mi.transcript_url = true) :
    (handleTail r u mi).transcript_url = mi.transcript_url := by
  unfold handleTail
  split
  · split <;> simp
  · split
    · rfl
    · next body hbody =>
      dsimp only
      generalize hgen : (if (hasSubstr u "nws/recording" || hasSubstr u "play/info") = true
          then capture_from_recording_api body mi else (mi, false)) = pr
      have ht1 : pr.1.transcript_url = mi.transcript_url := by
        rw [← hgen]
        split
        · exact capture_api_t _ _ h
        · rfl
      have ht1t : optTruthy pr.1.transcript_url = true := by rw [ht1]; exact h
      split
      · exact ht1
      · have ht2 : (capture_from_json_fallback body pr.1).transcript_url
            = pr.1.transcript_url := fallback_t _ _ ht1t
        split
        · simp [ht2, ht1]
        · rw [ht2, ht1]

theorem handle_response_v (r : Exchange) (mi0 : MediaInfo)
    (h : optTruthy mi0.video_url = true) :
    (handle_response r mi0).video_url = mi0.video_url := by
  simp only [handle_response, h, Bool.not_true, Bool.and_false, Bool.false_eq_true, if_false]
  split
  · next hvtt =>
    have h1 : optTruthy ({ mi0 with transcript_url := some r.url } : MediaInfo).video_url
        = true := h
    rw [handleTail_v _ _ _ h1]
  · rw [handleTail_v _ _ _ h]

theorem handle_response_t (r : Exchange) (mi0 : MediaInfo)
    (h : optTruthy mi0.transcript_url = true) :
    (handle_response r mi0).transcript_url = mi0.transcript_url := by
  simp only [handle_response]
  split
  · next hmp4 =>
    split
    · next hin =>
      have h1 : optTruthy ({ mi0 with video_url := some r.url } : MediaInfo).transcript_url
          = true := h
      simp only [h1, h, Bool.not_true, Bool.and_false, Bool.false_eq_true, if_false]
      rw [handleTail_t _ _ _ h1]
    · simp only [h, Bool.not_true, Bool.and_false, Bool.false_eq_true, if_false]
      rw [handleTail_t _ _ _ h]
  · simp only [h, Bool.not_true, Bool.and_false, Bool.false_eq_true, if_false]
    rw [handleTail_t _ _ _ h]

theorem foldl_handle_v (exchanges : List Exchange) :
    ∀ mi : MediaInfo, optTruthy mi.video_url = true →
      (exchanges.foldl (fun m r => handle_response r m) mi).video_url = mi.video_url := by
  induction exchanges with
  | nil => intro mi h; rfl
  | cons r exs ih =>
    intro mi h
    have hr := handle_response_v r mi h
    have h2 : optTruthy (handle_response r mi).video_url = true := by rw [hr]; exact h
    simp only [List.foldl_cons]
    rw [ih _ h2, hr]

theorem foldl_handle_t (exchanges : List Exchange) :
    ∀ mi : MediaInfo, optTruthy mi.transcript_url = true →
      (exchanges.foldl (fun m r => handle_response r m) mi).transcript_url
        = mi.transcript_url := by
  induction exchanges with
  | nil => intro mi h; rfl
  | cons r exs ih =>
    intro mi h
    have hr := handle_response_t r mi h
    have h2 : optTruthy (handle_response r mi).transcript_url = true := by rw [hr]; exact h
    simp only [List.foldl_cons]
    rw [ih _ h2, hr]

theorem domVideoLoop_t (probes : List (Option String)) :
    ∀ mi : MediaInfo, (domVideoLoop probes mi).transcript_url = mi.transcript_url := by
  induction probes with
  | nil => intro mi; rfl
  | cons p ps ih =>
    intro mi
    unfold domVideoLoop
    split
    · split
      · simp
      · exact ih mi
    · exact ih mi

theorem trackStep_v (probe : Option String) (mi : MediaInfo) :
    (trackStep probe mi).video_url = mi.video_url := by
  unfold trackStep
  repeat' split
  all_goals simp

theorem titleStep_urls (rawTitle : Option String) (mi : MediaInfo) :
    (titleStep rawTitle mi).video_url = mi.video_url ∧
    (titleStep rawTitle mi).transcript_url = mi.transcript_url := by
  unfold titleStep
  constructor <;> (repeat' split) <;> simp [apply_ite]

/-- C1: once either URL field of the session accumulator is non-empty, no
later classified exchange, DOM probe, track probe or title fallback of the
session replaces or clears it — the remaining session returns it unchanged.
Stated from an arbitrary intermediate state `mi`, this covers the moment the
field first becomes non-empty at any point of a session. -/
theorem C1_url_fields_first_wins (mi : MediaInfo) (exchanges : List Exchange)
    (videoProbes : List (Option String)) (trackProbe rawTitle : Option String) :
    (optTruthy mi.video_url = true →
      (runSession exchanges videoProbes trackProbe rawTitle mi).video_url = mi.video_url) ∧
    (optTruthy mi.transcript_url = true →
      (runSession exchanges videoProbes trackProbe rawTitle mi).transcript_url
        = mi.transcript_url) := by
  unfold runSession
  dsimp only
  constructor
  · intro h
    have h1 := foldl_handle_v exchanges mi h
    have h1t : optTruthy (exchanges.foldl (fun m r => handle_response r m) mi).video_url
        = true := by rw [h1]; exact h
    simp only [h1t, Bool.not_true, Bool.false_eq_true, if_false]
    generalize hgen : (exchanges.foldl (fun m r => handle_response r m) mi) = mi1
    rw [hgen] at h1
    split
    · rw [(titleStep_urls _ _).1, trackStep_v, h1]
    · rw [(titleStep_urls _ _).1, h1]
  · intro h
    have h1 := foldl_handle_t exchanges mi h
    have h1t : optTruthy (exchanges.foldl (fun m r => handle_response r m) mi).transcript_url
        = true := by rw [h1]; exact h
    generalize hgen : (exchanges.foldl (fun m r => handle_response r m) mi) = mi1
    rw [hgen] at h1 h1t
    split
    · next hv =>
      have hd : (domVideoLoop videoProbes mi1).transcript_url = mi1.transcript_url :=
        domVideoLoop_t _ _
      have hdt : optTruthy (domVideoLoop videoProbes mi1).transcript_url = true := by
        rw [hd]; exact h1t
      simp only [hdt, Bool.not_true, Bool.false_eq_true, if_false]
      rw [(titleStep_urls _ _).2, hd, h1]
    · simp only [h1t, Bool.not_true, Bool.false_eq_true, if_false]
      rw [(titleStep_urls _ _).2, h1]

/-- Witness for C1: a state with both URLs set survives a further exchange
and all fallbacks unchanged. -/
theorem C1_witness :
    (runSession [⟨"https://h.example/other.mp4", "text/html", none⟩] [some "https://d/x.mp4"]
      (some "https://d/t.vtt") (some "Sign in - Zoom")
      ⟨some "v", some "t", "Zoom_Recording", none, none⟩).video_url = some "v" ∧
    (runSession [⟨"https://h.example/other.mp4", "text/html", none⟩] [some "https://d/x.mp4"]
      (some "https://d/t.vtt") (some "Sign in - Zoom")
      ⟨some "v", some "t", "Zoom_Recording", none, none⟩).transcript_url = some "t" :=
  ⟨(C1_url_fields_first_wins ⟨some "v", some "t", "Zoom_Recording", none, none⟩
      [⟨"https://h.example/other.mp4", "text/html", none⟩] [some "https://d/x.mp4"]
      (some "https://d/t.vtt") (some "Sign in - Zoom")).1 (by decide),
   (C1_url_fields_first_wins ⟨some "v", some "t", "Zoom_Recording", none, none⟩
      [⟨"https://h.example/other.mp4", "text/html", none⟩] [some "https://d/x.mp4"]
      (some "https://d/t.vtt") (some "Sign in - Zoom")).2 (by decide)⟩

end ZoomDL
